import Mathlib

/-!
Shallow embedding of the credential-validation / authentication core of the
github-enterprise-mcp server (TypeScript sources `src/auth/basicAuth.ts`,
`src/auth/githubAuth.ts`, `src/services/githubService.ts`, and the server
bootstrap).  Pure functions of the source are translated to Lean functions;
the stateful parts (the authenticated-user map, the request-hook mutation of
header objects) are translated to explicit state passing, with a small
address-indexed heap for the hook so that object aliasing and mutation are
modelled faithfully.
-/

/- ### Header-value masking (basicAuth.ts, beforeRequest hook, lines 61-77)

The hook masks the `authorization` header by
  `'Bearer xxxx' + value.substring(value.length - 4)`
and the `MFA` header by
  `value.replace(/bearer\s+([^$]+)/, 'bearer xxxx' + value.substring(value.length - 4))`.
`String.prototype.substring` clamps a negative start index to 0, which is
exactly the behaviour of `List.drop` with truncated subtraction. -/

/-- `value.substring(value.length - n)` : the last `n` characters of `s`
(the whole of `s` when `s` is shorter than `n`). -/
def lastChars (n : Nat) (s : String) : String :=
  String.mk (s.data.drop (s.data.length - n))

/-- Masking of the `authorization` header value (basicAuth.ts line 64). -/
def maskAuthorization (v : String) : String :=
  "Bearer xxxx" ++ lastChars 4 v

/- JavaScript `String.prototype.replace` with the non-global regex
`/bearer\s+([^$]+)/`: the first match (scanning positions left to right) is
replaced; the replacement string undergoes `$`-substitution
(`$$`, `$&`, the backtick form, the quote form, `$1`, `$01`). -/

/-- `$`-substitution in a JavaScript replacement string.  `matched` is the
matched text, `bef`/`aft` the text before/after the match, `g1` capture
group 1 (the regex has exactly one group, so `$2`..`$9` stay literal, as
does `$<...>` since there are no named groups). -/
def expandRepl (matched bef aft g1 : List Char) : List Char → List Char
  | [] => []
  | c :: rs =>
    if c = '$' then
      match rs with
      | [] => ['$']
      | d :: rs2 =>
        if d = '$' then '$' :: expandRepl matched bef aft g1 rs2
        else if d = '&' then matched ++ expandRepl matched bef aft g1 rs2
        else if d = Char.ofNat 96 then bef ++ expandRepl matched bef aft g1 rs2
        else if d = Char.ofNat 39 then aft ++ expandRepl matched bef aft g1 rs2
        else if d = '0' then
          match rs2 with
          | e :: rs3 =>
            if e = '1' then g1 ++ expandRepl matched bef aft g1 rs3
            else '$' :: '0' :: expandRepl matched bef aft g1 (e :: rs3)
          | [] => ['$', '0']
        else if d = '1' then g1 ++ expandRepl matched bef aft g1 rs2
        else '$' :: d :: expandRepl matched bef aft g1 rs2
    else c :: expandRepl matched bef aft g1 rs

/-- Try to match `/bearer\s+([^$]+)/` at the head of `l`.  `\s+[^$]+`
(with backtracking) matches the longest dollar-free run starting at the
first character after `bearer`, provided that character is whitespace and
the run has length at least 2.  Returns `(matched, group1, rest)`. -/
def matchBearerAt (l : List Char) : Option (List Char × List Char × List Char) :=
  match l with
  | 'b' :: 'e' :: 'a' :: 'r' :: 'e' :: 'r' :: c :: rest =>
    if c.isWhitespace then
      let run := (c :: rest).takeWhile (fun x => x ≠ '$')
      let after := (c :: rest).dropWhile (fun x => x ≠ '$')
      if 2 ≤ run.length then
        let tl := run.dropWhile Char.isWhitespace
        let g1 := if tl.isEmpty then run.drop (run.length - 1) else tl
        some ('b' :: 'e' :: 'a' :: 'r' :: 'e' :: 'r' :: run, g1, after)
      else none
    else none
  | _ => none

/-- Scan for the first match of `/bearer\s+([^$]+)/`, returning
`(text before, matched, group1, text after)`. -/
def findBearer : List Char → Option (List Char × List Char × List Char × List Char)
  | [] => none
  | c :: cs =>
    match matchBearerAt (c :: cs) with
    | some (m, g, r) => some ([], m, g, r)
    | none =>
      match findBearer cs with
      | some (p, m, g, r) => some (c :: p, m, g, r)
      | none => none

/-- `v.replace(/bearer\s+([^$]+)/, repl)` for a non-global regex: replace
the first match, applying `$`-substitution to `repl`. -/
def jsReplaceBearer (v repl : String) : String :=
  match findBearer v.data with
  | none => v
  | some (p, m, g, r) => String.mk (p ++ expandRepl m p r g repl.data ++ r)

/-- Masking of the `MFA` header value (basicAuth.ts line 73). -/
def maskMFA (v : String) : String :=
  jsReplaceBearer v ("bearer xxxx" ++ lastChars 4 v)

/- ### Header maps and the masked diagnostic record -/

/-- The headers the hook inspects.  `none` models an absent key, `some ""`
a key present with the empty string (JavaScript distinguishes the two, and
the hook's truthiness tests treat `""` like absence). -/
structure HeaderMap where
  authorization : Option String
  MFA : Option String
  deriving DecidableEq, Repr

/-- JavaScript truthiness of an optional string-valued header. -/
def truthy : Option String → Bool
  | none => false
  | some s => s ≠ ""

/-- Mask the `authorization` entry when present and truthy
(basicAuth.ts lines 61-66), else leave the map unchanged. -/
def updAuth (hm : HeaderMap) : Option HeaderMap :=
  match hm.authorization with
  | some v => if v ≠ "" then some { hm with authorization := some (maskAuthorization v) } else none
  | none => none

/-- Mask the `MFA` entry when present and truthy
(basicAuth.ts lines 69-74), else leave the map unchanged. -/
def updMFA (hm : HeaderMap) : Option HeaderMap :=
  match hm.MFA with
  | some v => if v ≠ "" then some { hm with MFA := some (maskMFA v) } else none
  | none => none

/-- The complete header transformation the hook applies to the copied
request before logging it. -/
def maskHeaders (hm : HeaderMap) : HeaderMap :=
  let h1 := (updAuth hm).getD hm
  (updMFA h1).getD h1

/-- The diagnostic record logged by the hook: method, url and the masked
headers; the body is deliberately never included (basicAuth.ts lines 87-92). -/
structure DiagnosticRecord where
  method : String
  url : String
  headers : HeaderMap
  deriving DecidableEq, Repr

/- ### MFA header injection (basicAuth.ts lines 43-51, githubService.ts)

`"MFA": mfaBearerToken ? `bearer ${mfaBearerToken}` : ''` — the key is
always present; when no secondary factor is configured its value is `''`. -/

/-- The custom request headers passed to the Octokit constructor, as a
key/value list. -/
def requestHeaders (mfaBearerToken : String) : List (String × String) :=
  [("MFA", if mfaBearerToken ≠ "" then "bearer " ++ mfaBearerToken else "")]

/-- The characters that can occur in the fixed part of a masked header
value: the scheme words `Bearer`/`bearer`, the space, the placeholder
character `x`, and the regex-sensitive dollar sign. -/
def schemeChars : List Char := ['B', 'b', 'e', 'a', 'r', ' ', 'x', '$']

/- ### CredentialValidator (basicAuth.ts `getUserFromToken`, lines 27-125)

The upstream call `octokit.users.getAuthenticated()` either resolves with a
response body or rejects; Octokit rejections carry a numeric `status` for
HTTP errors and no status for network-level failures.  The relevant body
fields are the numeric `id` and the string `login` (`login` may be absent,
the code never checks it). -/

/-- The fields of the upstream "who am I" response body that the code
reads.  `id : Option Int` models a possibly-absent numeric field (JavaScript
`undefined`), `login : Option String` a possibly-absent string field. -/
structure UserInfo where
  id : Option Int
  login : Option String
  deriving DecidableEq, Repr

/-- Possible outcomes of the upstream call: a 2xx resolution with a body
(`none` models a null/empty body), a rejection carrying an HTTP status, or
a network-level rejection without a status (timeout, DNS, connection
reset). -/
inductive ApiOutcome where
  | ok : Option UserInfo → ApiOutcome
  | httpError : Nat → ApiOutcome
  | networkError : ApiOutcome
  deriving DecidableEq, Repr

/-- An exception propagating out of the `try` block. -/
inductive Caught where
  | http : Nat → Caught
  | network : Caught
  deriving DecidableEq, Repr

/-- The `User` object built on success (basicAuth.ts lines 107-112).
`username := userInfo.login` is copied without validation, so it can be
absent. -/
structure User where
  id : String
  username : Option String
  accessToken : String
  profile : UserInfo
  deriving DecidableEq, Repr

/-- The distinct console diagnostics the two `getUserFromToken` variants
can emit on their exit paths (basicAuth.ts lines 29, 102, 117, 119, 121;
githubAuth.ts lines 23, 39, 54, 56, 58, 61 — only the githubAuth variant
has the dedicated 404 endpoint-not-found message). -/
inductive LogMsg where
  | noError
  | invalidTokenInput
  | invalidUserInfo
  | authFailed401
  | authFailed403
  | authFailed404
  | genericAuthError
  deriving DecidableEq, Repr

/-- `!token || typeof token !== 'string' || token.trim() === ''`
for a string argument: true exactly when every character is whitespace
(which also covers the empty string). -/
def tokenInvalid (token : String) : Bool :=
  token.data.all Char.isWhitespace

/-- `userInfo.id.toString()` for an integer id. -/
def intToString (n : Int) : String := toString n

/-- The body of the `try` block (basicAuth.ts lines 33-114): builds the
`User` on success, yields `none` when the body or its `id` is falsy
(`!userInfo || !userInfo.id`), and raises on a rejected upstream call. -/
def tryBody (token : String) (o : ApiOutcome) : Except Caught (Option User) :=
  match o with
  | .ok none => .ok none
  | .ok (some info) =>
    match info.id with
    | some n =>
      if n = 0 then .ok none
      else .ok (some { id := intToString n, username := info.login,
                       accessToken := token, profile := info })
    | none => .ok none
  | .httpError s => .error (.http s)
  | .networkError => .error .network

/-- The basicAuth.ts `catch` handler's diagnostic (lines 115-122): 401 and
403 get dedicated messages, everything else (including network failures and
all other HTTP statuses) the generic one. -/
def catchLog : Caught → LogMsg
  | .http s => if s = 401 then .authFailed401
               else if s = 403 then .authFailed403
               else .genericAuthError
  | .network => .genericAuthError

/-- The githubAuth.ts `catch` handler's diagnostic (lines 52-64): like the
basicAuth one but with an additional dedicated message for HTTP 404
(endpoint not found, lines 57-59). -/
def catchLogGh : Caught → LogMsg
  | .http s => if s = 401 then .authFailed401
               else if s = 403 then .authFailed403
               else if s = 404 then .authFailed404
               else .genericAuthError
  | .network => .genericAuthError

/-- Observable result of one `getUserFromToken` call: the returned value,
whether the upstream endpoint was contacted, and the diagnostic emitted. -/
structure VerifyResult where
  user : Option User
  networkCalled : Bool
  log : LogMsg
  deriving DecidableEq, Repr

/-- `getUserFromToken` (basicAuth.ts lines 27-125) as a function of the
token and the upstream outcome. -/
def getUserFromToken (token : String) (o : ApiOutcome) : VerifyResult :=
  if tokenInvalid token then ⟨none, false, .invalidTokenInput⟩
  else
    match tryBody token o with
    | .ok (some u) => ⟨some u, true, .noError⟩
    | .ok none => ⟨none, true, .invalidUserInfo⟩
    | .error e => ⟨none, true, catchLog e⟩

/-- `getUserFromToken` of githubAuth.ts (lines 21-65): the same guard and
`try` body (no MFA header or logging hook is installed there, which does
not affect the returned value), but its `catch` handler additionally
distinguishes HTTP 404 with a dedicated diagnostic. -/
def getUserFromTokenGh (token : String) (o : ApiOutcome) : VerifyResult :=
  if tokenInvalid token then ⟨none, false, .invalidTokenInput⟩
  else
    match tryBody token o with
    | .ok (some u) => ⟨some u, true, .noError⟩
    | .ok none => ⟨none, true, .invalidUserInfo⟩
    | .error e => ⟨none, true, catchLogGh e⟩

/-- The same function with the exception layer kept explicit: anything the
`try` block raises flows to the `catch` handler, which turns it into a
normal `null` return, so the caller-visible result is always `.ok`. -/
def getUserFromTokenE (token : String) (o : ApiOutcome) : Except Caught (Option User) :=
  if tokenInvalid token then .ok none
  else
    match tryBody token o with
    | .ok r => .ok r
    | .error _ => .ok none

/- ### SessionRegistry and the authentication flows
(basicAuth.ts lines 17, 133-154, 202-224)

`authenticatedUsers` is a JavaScript `Map<string, User>`; `Map.set`
overwrites the value of an existing key in place and appends a new key at
the end. -/

/-- The registry of authenticated users, as an insertion-ordered
association list. -/
abbrev Registry := List (String × User)

/-- `Map.set` semantics: overwrite in place if the key exists, append
otherwise. -/
def mapSet (m : Registry) (k : String) (v : User) : Registry :=
  if m.any (fun p => p.1 = k) then
    m.map (fun p => if p.1 = k then (k, v) else p)
  else m ++ [(k, v)]

/-- The BasicStrategy verify callback (basicAuth.ts lines 133-154), which
is what a caller's `ensureAuthenticated` gate runs: the presented password
is the token; on success the user is stored under its id, on failure the
registry is untouched. -/
def ensureAuthenticated (m : Registry) (password : String) (o : ApiOutcome) :
    Registry × Option User :=
  match (getUserFromToken password o).user with
  | some u => (mapSet m u.id u, some u)
  | none => (m, none)

/-- `initializeTokenAuth` (basicAuth.ts lines 202-224): authenticates with
the configured token when one is set (JavaScript truthiness), storing the
user on success. -/
def initTokenAuth (m : Registry) (configToken : String) (o : ApiOutcome) :
    Registry × Bool :=
  if configToken ≠ "" then
    match (getUserFromToken configToken o).user with
    | some u => (mapSet m u.id u, true)
    | none => (m, false)
  else (m, false)

/- ### Heap model of the beforeRequest hook (basicAuth.ts lines 52-94)

JavaScript objects are mutable references.  The hook receives the live
request object, makes a deep copy of it via `JSON.parse(JSON.stringify(..))`
(fresh request object and fresh headers object), and performs its masking by
assigning freshly-built header objects to the *copy's* `headers` field; the
original request object and the headers object it points to are never
written.  The heap is a list of objects indexed by address; allocation
appends, field assignment is `List.set` at the object's address. -/

/-- A heap object: a headers object, or a request object holding the
address of its headers object plus its method and url. -/
inductive Obj where
  | hdrs : HeaderMap → Obj
  | req : Nat → String → String → Obj
  deriving DecidableEq, Repr

/-- The heap: objects indexed by address. -/
abbrev Heap := List Obj

/-- One `maskedRequest.headers = { ...maskedRequest.headers, ... }` step on
the request copy at address `copyReq`: when the update applies, allocate the
freshly-built header object and assign its address to the copy's `headers`
field; otherwise nothing is written. -/
def hookMaskStep (h : Heap) (copyReq : Nat) (method url : String)
    (hm : HeaderMap) (upd : Option HeaderMap) : Heap × HeaderMap :=
  match upd with
  | some newHm => ((h ++ [Obj.hdrs newHm]).set copyReq (Obj.req h.length method url), newHm)
  | none => (h, hm)

/-- The beforeRequest hook: deep-copy the request at `reqAddr`, mask the
`authorization` and `MFA` headers on the copy, and produce the diagnostic
record (method, url, masked headers — no body).  Returns the final heap and
the record (`none` if `reqAddr` does not hold a well-formed request). -/
def beforeRequestHook (h : Heap) (reqAddr : Nat) : Heap × Option DiagnosticRecord :=
  match h[reqAddr]? with
  | some (Obj.req hRef method url) =>
    match h[hRef]? with
    | some (Obj.hdrs hm) =>
      let h1 := h ++ [Obj.hdrs hm]
      let h2 := h1 ++ [Obj.req h.length method url]
      let copyReq := h1.length
      let s3 := hookMaskStep h2 copyReq method url hm (updAuth hm)
      let s4 := hookMaskStep s3.1 copyReq method url s3.2 (updMFA s3.2)
      (s4.1, some ⟨method, url, s4.2⟩)
    | _ => (h, none)
  | _ => (h, none)

/- ### Helper lemmas -/

theorem lastChars_length (s : String) (h : 4 ≤ s.length) :
    (lastChars 4 s).length = 4 := by
  have h' : 4 ≤ s.data.length := h
  simp only [lastChars, String.length, List.length_drop]
  omega

theorem lastChars_append (p s : String) (h : 4 ≤ s.length) :
    lastChars 4 (p ++ s) = lastChars 4 s := by
  simp only [lastChars, String.data_append, List.length_append]
  have hn : p.data.length + s.data.length - 4 = p.data.length + (s.data.length - 4) := by
    have : 4 ≤ s.data.length := h
    omega
  rw [hn, List.drop_append]

theorem lastChars_data_subset (s : String) : ∀ c ∈ (lastChars 4 s).data, c ∈ s.data := by
  intro c hc
  exact (List.drop_suffix _ _).subset hc

/-- If every character of `p` lies in `F` and no character of `w` does,
an occurrence of `w` inside `p ++ t` with `w` as long as `t` must be `t`
itself. -/
theorem eq_of_infix_append_of_chars (F p t w : List Char)
    (hp : ∀ c ∈ p, c ∈ F) (hw : ∀ c ∈ w, c ∉ F)
    (hlen : w.length = t.length) (hne : w ≠ [])
    (hinf : w <:+: p ++ t) : w = t := by
  obtain ⟨u, v, huv⟩ := hinf
  have hlen2 : u.length + (w.length + v.length) = p.length + t.length := by
    have := congrArg List.length huv
    simpa [List.length_append] using this
  have hup : p.length ≤ u.length := by
    by_contra hlt
    push_neg at hlt
    obtain ⟨c, w', rfl⟩ : ∃ c w', w = c :: w' := by
      cases w with
      | nil => exact absurd rfl hne
      | cons c w' => exact ⟨c, w', rfl⟩
    have h1 : (u ++ (c :: w') ++ v)[u.length]? = some c := by
      rw [List.append_assoc, List.getElem?_append_right (Nat.le_refl _)]
      simp
    rw [huv] at h1
    rw [List.getElem?_append_left hlt, List.getElem?_eq_getElem hlt] at h1
    have hcP : c ∈ p := by
      have hmem := List.getElem_mem (l := p) (n := u.length) hlt
      rwa [Option.some_inj.mp h1] at hmem
    exact hw c (List.mem_cons_self c w') (hp c hcP)
  have hv : v = [] := by
    have : v.length = 0 := by omega
    exact List.length_eq_zero.mp this
  subst hv
  have huv' : u ++ w = p ++ t := by simpa using huv
  have hu : u.length = p.length := by omega
  exact (List.append_inj huv' hu).2

theorem expandRepl_no_dollar (m b a g : List Char) :
    ∀ repl : List Char, (∀ c ∈ repl, c ≠ '$') → expandRepl m b a g repl = repl
  | [], _ => rfl
  | c :: rs, h => by
    have hc : c ≠ '$' := h c (List.mem_cons_self c rs)
    have ih := expandRepl_no_dollar m b a g rs (fun x hx => h x (List.mem_cons_of_mem c hx))
    rw [expandRepl.eq_def]
    simp [hc, ih]

theorem matchBearerAt_eval (s : List Char) (hne : s ≠ [])
    (hd : ∀ c ∈ s, c ≠ '$') :
    matchBearerAt ('b' :: 'e' :: 'a' :: 'r' :: 'e' :: 'r' :: ' ' :: s) =
      some ('b' :: 'e' :: 'a' :: 'r' :: 'e' :: 'r' :: ' ' :: s,
            (if ((' ' :: s).dropWhile Char.isWhitespace).isEmpty
             then (' ' :: s).drop ((' ' :: s).length - 1)
             else (' ' :: s).dropWhile Char.isWhitespace), []) := by
  have hall : ∀ x ∈ ' ' :: s, (fun c => decide (c ≠ '$')) x = true := by
    intro x hx
    rcases List.mem_cons.mp hx with h | h
    · subst h; decide
    · simp [hd x h]
  have htake : (' ' :: s).takeWhile (fun c => decide (c ≠ '$')) = ' ' :: s :=
    List.takeWhile_eq_self_iff.mpr hall
  have hdrop : (' ' :: s).dropWhile (fun c => decide (c ≠ '$')) = [] :=
    List.dropWhile_eq_nil_iff.mpr hall
  have h2 : 2 ≤ ((' ' :: s).takeWhile (fun c => decide (c ≠ '$'))).length := by
    rw [htake]
    cases hs : s with
    | nil => exact absurd hs hne
    | cons x xs => simp
  simp only [matchBearerAt, htake, hdrop]
  rw [if_pos (by decide : (' ' : Char).isWhitespace = true), if_pos (htake ▸ h2)]

theorem findBearer_bearer (s : List Char) (hne : s ≠ [])
    (hd : ∀ c ∈ s, c ≠ '$') :
    ∃ g1, findBearer ('b' :: 'e' :: 'a' :: 'r' :: 'e' :: 'r' :: ' ' :: s) =
      some ([], 'b' :: 'e' :: 'a' :: 'r' :: 'e' :: 'r' :: ' ' :: s, g1, []) := by
  exact ⟨_, by rw [findBearer, matchBearerAt_eval s hne hd]⟩

theorem maskMFA_bearer (s : String) (hne : s.data ≠ [])
    (hd : ∀ c ∈ s.data, c ≠ '$') :
    maskMFA ("bearer " ++ s) = "bearer xxxx" ++ lastChars 4 ("bearer " ++ s) := by
  have hv : ("bearer " ++ s).data = 'b' :: 'e' :: 'a' :: 'r' :: 'e' :: 'r' :: ' ' :: s.data := by
    cases s; rfl
  obtain ⟨g1, hfind⟩ := findBearer_bearer s.data hne hd
  have hrepl : ∀ c ∈ ("bearer xxxx" ++ lastChars 4 ("bearer " ++ s)).data, c ≠ '$' := by
    intro c hc
    rw [String.data_append] at hc
    rcases List.mem_append.mp hc with h | h
    · intro hcd; subst hcd; simp at h
    · have hmem := lastChars_data_subset ("bearer " ++ s) c h
      rw [hv] at hmem
      simp only [List.mem_cons] at hmem
      rcases hmem with h' | h' | h' | h' | h' | h' | h' | h'
      · simp [h']
      · simp [h']
      · simp [h']
      · simp [h']
      · simp [h']
      · simp [h']
      · simp [h']
      · exact hd c h'
  unfold maskMFA jsReplaceBearer
  rw [hv, hfind]
  simp only []
  rw [expandRepl_no_dollar _ _ _ _ _ hrepl]
  have : ("bearer xxxx" ++ lastChars 4 ("bearer " ++ s)).data ++ [] =
      ("bearer xxxx" ++ lastChars 4 ("bearer " ++ s)).data := List.append_nil _
  rw [List.nil_append, this]

theorem maskAuthorization_bearer (s : String) (h : 4 ≤ s.length) :
    maskAuthorization ("Bearer " ++ s) = "Bearer xxxx" ++ lastChars 4 s := by
  unfold maskAuthorization
  rw [lastChars_append _ _ h]

/- Registry lemmas: `mapSet` keeps the key list duplicate-free and leaves
exactly one entry for the written key. -/

theorem mapSet_keys (m : Registry) (k : String) (v : User)
    (hk : m.any (fun p => p.1 = k) = true) :
    (mapSet m k v).map Prod.fst = m.map Prod.fst := by
  unfold mapSet
  rw [if_pos hk, List.map_map]
  apply List.map_congr_left
  intro p _
  by_cases hp : p.1 = k
  · simp [hp]
  · simp [hp]

theorem countP_mapSet (m : Registry) (k : String) (v : User)
    (hnodup : (m.map Prod.fst).Nodup) :
    (mapSet m k v).countP (fun p => p.1 == k) = 1 := by
  unfold mapSet
  by_cases hk : m.any (fun p => p.1 = k) = true
  · rw [if_pos hk]
    rw [List.countP_map]
    have hcnt : (m.countP ((fun q : String × User => q.1 == k) ∘
        (fun p => if p.1 = k then (k, v) else p))) = m.countP (fun q => q.1 == k) := by
      apply List.countP_congr
      intro p _
      by_cases hp : p.1 = k
      · simp [hp]
      · simp [hp]
    rw [hcnt]
    have hmem : k ∈ m.map Prod.fst := by
      obtain ⟨p, hp, hpk⟩ := List.any_eq_true.mp hk
      exact List.mem_map.mpr ⟨p, hp, by simpa using hpk⟩
    have : m.countP (fun q => q.1 == k) = (m.map Prod.fst).countP (fun x => x == k) := by
      rw [List.countP_map]
      rfl
    rw [this]
    have := List.count_eq_one_of_mem hnodup hmem
    simpa [List.count] using this
  · rw [if_neg hk]
    rw [List.countP_append]
    have h0 : m.countP (fun p => p.1 == k) = 0 := by
      apply List.countP_eq_zero.mpr
      intro p hp
      simp only [beq_iff_eq]
      intro hpk
      exact hk (List.any_eq_true.mpr ⟨p, hp, by simp [hpk]⟩)
    simp [h0]

theorem mapSet_nodup (m : Registry) (k : String) (v : User)
    (hnodup : (m.map Prod.fst).Nodup) :
    ((mapSet m k v).map Prod.fst).Nodup := by
  by_cases hk : m.any (fun p => p.1 = k) = true
  · rw [mapSet_keys m k v hk]; exact hnodup
  · unfold mapSet
    rw [if_neg hk]
    rw [List.map_append]
    simp only [List.map_cons, List.map_nil]
    apply List.Nodup.append hnodup (List.nodup_singleton k)
    intro x hx hx1
    simp only [List.mem_singleton] at hx1
    subst hx1
    obtain ⟨p, hp, hpk⟩ := List.mem_map.mp hx
    exact hk (List.any_eq_true.mpr ⟨p, hp, by simp [hpk]⟩)

theorem lastChars_eq_self (s : String) (h : s.length ≤ 4) : lastChars 4 s = s := by
  have h' : s.data.length ≤ 4 := h
  unfold lastChars
  have hz : s.data.length - 4 = 0 := by omega
  rw [hz, List.drop_zero]

theorem maskAuthorization_idem (v : String) (h : 4 ≤ v.length) :
    maskAuthorization (maskAuthorization v) = maskAuthorization v := by
  unfold maskAuthorization
  rw [lastChars_append _ _ (by rw [lastChars_length v h]),
    lastChars_eq_self _ (by rw [lastChars_length v h])]

theorem lastChars_no_dollar (v : String) (hd : ∀ c ∈ v.data, c ≠ '$') :
    ∀ c ∈ (lastChars 4 v).data, c ≠ '$' :=
  fun c hc => hd c (lastChars_data_subset v c hc)

theorem maskMFA_idem (s : String) (hlen : 4 ≤ s.length)
    (hd : ∀ c ∈ s.data, c ≠ '$') :
    maskMFA (maskMFA ("bearer " ++ s)) = maskMFA ("bearer " ++ s) := by
  have hne : s.data ≠ [] := by
    have h' : 4 ≤ s.data.length := hlen
    intro h0
    rw [h0] at h'
    simp at h'
  have h1 : maskMFA ("bearer " ++ s) = "bearer xxxx" ++ lastChars 4 s := by
    rw [maskMFA_bearer s hne hd, lastChars_append _ _ hlen]
  have hassoc : ("bearer xxxx" : String) ++ lastChars 4 s =
      "bearer " ++ ("xxxx" ++ lastChars 4 s) := by
    rw [← String.append_assoc]
    rfl
  have hs' : ∀ c ∈ (("xxxx" : String) ++ lastChars 4 s).data, c ≠ '$' := by
    intro c hc
    rw [String.data_append] at hc
    rcases List.mem_append.mp hc with h | h
    · intro hcd; subst hcd; simp at h
    · exact lastChars_no_dollar s hd c h
  have hs'ne : (("xxxx" : String) ++ lastChars 4 s).data ≠ [] := by
    rw [String.data_append]
    simp
  have hs'len : 4 ≤ (("xxxx" : String) ++ lastChars 4 s).length := by
    have : (("xxxx" : String) ++ lastChars 4 s).length =
        ("xxxx" : String).length + (lastChars 4 s).length := by
      show (("xxxx" : String) ++ lastChars 4 s).data.length = _
      rw [String.data_append, List.length_append]
      rfl
    have h4 : ("xxxx" : String).length = 4 := rfl
    omega
  rw [h1, hassoc, maskMFA_bearer _ hs'ne hs',
    lastChars_append _ _ hs'len, lastChars_append _ _ (by rw [lastChars_length s hlen]),
    lastChars_eq_self _ (by rw [lastChars_length s hlen]), ← hassoc]

/- Heap frame lemmas: the hook only writes to freshly allocated addresses
and to the request copy, never to a pre-existing address. -/

theorem hookMaskStep_frame (h : Heap) (copyReq : Nat) (method url : String)
    (hm : HeaderMap) (u : Option HeaderMap) (a : Nat)
    (ha : a ≠ copyReq) (ha2 : a < h.length) :
    (hookMaskStep h copyReq method url hm u).1[a]? = h[a]? := by
  cases u with
  | none => rfl
  | some newHm =>
    show ((h ++ [Obj.hdrs newHm]).set copyReq (Obj.req h.length method url))[a]? = h[a]?
    rw [List.getElem?_set_ne (Ne.symm ha), List.getElem?_append_left ha2]

theorem hookMaskStep_length (h : Heap) (copyReq : Nat) (method url : String)
    (hm : HeaderMap) (u : Option HeaderMap) :
    h.length ≤ (hookMaskStep h copyReq method url hm u).1.length := by
  cases u with
  | none => exact Nat.le_refl _
  | some newHm =>
    show h.length ≤ ((h ++ [Obj.hdrs newHm]).set copyReq (Obj.req h.length method url)).length
    rw [List.length_set, List.length_append]
    simp

theorem hookMaskStep_headers (h : Heap) (copyReq : Nat) (method url : String)
    (hm : HeaderMap) (u : Option HeaderMap) :
    (hookMaskStep h copyReq method url hm u).2 = u.getD hm := by
  cases u <;> rfl

/- ### Claim theorems -/

/-- C10: `getUserFromToken` never throws: for every token and every
upstream outcome (including thrown network and API errors) the
exception-explicit semantics ends in a normal return — a `User` or `null` —
with every exception caught by the `catch` handler. -/
theorem C10_never_throws (t : String) (o : ApiOutcome) :
    ∃ r : Option User, getUserFromTokenE t o = Except.ok r := by
  unfold getUserFromTokenE
  by_cases h : tokenInvalid t
  · rw [if_pos h]
    exact ⟨none, rfl⟩
  · rw [if_neg h]
    cases htb : tryBody t o with
    | ok r => exact ⟨r, rfl⟩
    | error e => exact ⟨none, rfl⟩

/-- C4: a credential that is empty or whitespace-only after trimming makes
`getUserFromToken` fail immediately — the result is `null` with the
invalid-token diagnostic, and the upstream endpoint is never contacted. -/
theorem C4_blank_credential_no_network (t : String) (o : ApiOutcome)
    (h : ∀ c ∈ t.data, c.isWhitespace) :
    getUserFromToken t o = ⟨none, false, LogMsg.invalidTokenInput⟩ := by
  have hb : tokenInvalid t = true := by
    unfold tokenInvalid
    simpa [List.all_eq_true] using h
  simp [getUserFromToken, hb]

theorem C4_witness :
    (∀ c ∈ ("  " : String).data, c.isWhitespace) ∧
    getUserFromToken "  " ApiOutcome.networkError =
      ⟨none, false, LogMsg.invalidTokenInput⟩ :=
  ⟨by decide, C4_blank_credential_no_network "  " ApiOutcome.networkError (by decide)⟩

/-- C2 counterexample: the code does not map upstream outcomes to
distinguishable typed errors.  An HTTP 500 response and a network-level
failure produce the *identical* observable result — `null` plus the same
generic diagnostic — so no `MalformedResponse` value carrying the upstream
status (nor any `UpstreamUnreachable` value) exists to distinguish them. -/
theorem C2_counterexample :
    getUserFromToken "tok" (ApiOutcome.httpError 500) =
      getUserFromToken "tok" ApiOutcome.networkError ∧
    (getUserFromToken "tok" (ApiOutcome.httpError 500)).user = none ∧
    (getUserFromToken "tok" (ApiOutcome.httpError 500)).log =
      LogMsg.genericAuthError := by
  decide

/-- C2 amended: in both cited variants every failed verification returns
`null` rather than a typed error, and the outcome is reflected only in the
emitted diagnostic: HTTP 401 and 403 get dedicated messages in both
variants, HTTP 404 gets a dedicated message in the githubAuth variant only
(basicAuth treats it generically), and network-level failures together with
every remaining non-2xx status share one generic diagnostic, so nothing
carries the upstream status. -/
theorem C2_amended (t : String) (o : ApiOutcome)
    (ht : tokenInvalid t = false) (hfail : ∀ b, o ≠ ApiOutcome.ok b) :
    (getUserFromToken t o).user = none ∧
    (getUserFromTokenGh t o).user = none ∧
    (o = ApiOutcome.httpError 401 →
      (getUserFromToken t o).log = LogMsg.authFailed401 ∧
      (getUserFromTokenGh t o).log = LogMsg.authFailed401) ∧
    (o = ApiOutcome.httpError 403 →
      (getUserFromToken t o).log = LogMsg.authFailed403 ∧
      (getUserFromTokenGh t o).log = LogMsg.authFailed403) ∧
    (o = ApiOutcome.httpError 404 →
      (getUserFromToken t o).log = LogMsg.genericAuthError ∧
      (getUserFromTokenGh t o).log = LogMsg.authFailed404) ∧
    (∀ s, o = ApiOutcome.httpError s → s ≠ 401 → s ≠ 403 → s ≠ 404 →
      (getUserFromToken t o).log = LogMsg.genericAuthError ∧
      (getUserFromTokenGh t o).log = LogMsg.genericAuthError) ∧
    (o = ApiOutcome.networkError →
      (getUserFromToken t o).log = LogMsg.genericAuthError ∧
      (getUserFromTokenGh t o).log = LogMsg.genericAuthError) := by
  cases o with
  | ok b => exact absurd rfl (hfail b)
  | httpError s =>
    have hred : getUserFromToken t (ApiOutcome.httpError s) =
        ⟨none, true, catchLog (Caught.http s)⟩ := by
      simp [getUserFromToken, ht, tryBody]
    have hredg : getUserFromTokenGh t (ApiOutcome.httpError s) =
        ⟨none, true, catchLogGh (Caught.http s)⟩ := by
      simp [getUserFromTokenGh, ht, tryBody]
    refine ⟨by rw [hred], by rw [hredg], ?_, ?_, ?_, ?_, ?_⟩
    · intro h
      injection h with hs
      subst hs
      rw [hred, hredg]
      exact ⟨by simp [catchLog], by simp [catchLogGh]⟩
    · intro h
      injection h with hs
      subst hs
      rw [hred, hredg]
      exact ⟨by simp [catchLog], by simp [catchLogGh]⟩
    · intro h
      injection h with hs
      subst hs
      rw [hred, hredg]
      exact ⟨by simp [catchLog], by simp [catchLogGh]⟩
    · intro s' h h401 h403 h404
      injection h with hs
      subst hs
      rw [hred, hredg]
      exact ⟨by simp [catchLog, h401, h403], by simp [catchLogGh, h401, h403, h404]⟩
    · intro h
      exact absurd h (by simp)
  | networkError =>
    have hred : getUserFromToken t ApiOutcome.networkError =
        ⟨none, true, catchLog Caught.network⟩ := by
      simp [getUserFromToken, ht, tryBody]
    have hredg : getUserFromTokenGh t ApiOutcome.networkError =
        ⟨none, true, catchLogGh Caught.network⟩ := by
      simp [getUserFromTokenGh, ht, tryBody]
    refine ⟨by rw [hred], by rw [hredg], by simp, by simp, by simp, ?_, ?_⟩
    · intro s' h
      exact absurd h (by simp)
    · intro _
      rw [hred, hredg]
      exact ⟨by simp [catchLog], by simp [catchLogGh]⟩

theorem C2_witness :
    ((getUserFromToken "tok" (ApiOutcome.httpError 404)).log =
      LogMsg.genericAuthError ∧
     (getUserFromTokenGh "tok" (ApiOutcome.httpError 404)).log =
      LogMsg.authFailed404) ∧
    (getUserFromTokenGh "tok" (ApiOutcome.httpError 404)).user = none :=
  ⟨(C2_amended "tok" (ApiOutcome.httpError 404) (by decide)
      (fun b h => nomatch h)).2.2.2.2.1 rfl,
   (C2_amended "tok" (ApiOutcome.httpError 404) (by decide)
      (fun b h => nomatch h)).2.1⟩

/-- C3 counterexample: when no secondary factor is configured the outbound
header map still carries the custom MFA header — with the empty string as
its value — rather than omitting it entirely. -/
theorem C3_counterexample :
    requestHeaders "" = [("MFA", "")] ∧
    (requestHeaders "").lookup "MFA" = some "" := by
  decide

/-- C3 amended: the request carries exactly one custom MFA header; its
value is the literal word `bearer`, a space and the secret when a secondary
factor is configured, and the empty string (header still present) when
not. -/
theorem C3_amended (m : String) :
    (requestHeaders m).countP (fun p => p.1 == "MFA") = 1 ∧
    (requestHeaders m).lookup "MFA" =
      some (if m = "" then "" else "bearer " ++ m) := by
  constructor
  · simp [requestHeaders]
  · by_cases hm : m = "" <;> simp [requestHeaders, hm]

/-- C5 counterexample: a 2xx body with a numeric id but *no* login is not
rejected — the code only checks `!userInfo || !userInfo.id` — so instead of
a malformed-response failure it yields a successful `User` whose username
is absent. -/
theorem C5_counterexample :
    (getUserFromToken "tok" (ApiOutcome.ok (some ⟨some 42, none⟩))).user =
      some ⟨"42", none, "tok", ⟨some 42, none⟩⟩ ∧
    (getUserFromToken "tok" (ApiOutcome.ok (some ⟨some 42, none⟩))).log =
      LogMsg.noError := by
  decide

/-- C5 amended: on a 2xx response only the numeric id is validated — a
missing body or a missing/zero id yields the `null` failure with the
invalid-user-info diagnostic; otherwise the returned user's id is the
decimal string of the upstream id and its username is the upstream login
copied without validation (possibly absent). -/
theorem C5_amended (t : String) (info : UserInfo) (ht : tokenInvalid t = false) :
    (∀ n, info.id = some n → n ≠ 0 →
      (getUserFromToken t (ApiOutcome.ok (some info))).user =
        some ⟨intToString n, info.login, t, info⟩) ∧
    ((info.id = none ∨ info.id = some 0) →
      (getUserFromToken t (ApiOutcome.ok (some info))).user = none ∧
      (getUserFromToken t (ApiOutcome.ok (some info))).log = LogMsg.invalidUserInfo) ∧
    ((getUserFromToken t (ApiOutcome.ok none)).user = none ∧
      (getUserFromToken t (ApiOutcome.ok none)).log = LogMsg.invalidUserInfo) := by
  refine ⟨?_, ?_, ?_⟩
  · intro n hn hn0
    simp [getUserFromToken, ht, tryBody, hn, hn0]
  · rintro (hid | hid) <;> constructor <;> simp [getUserFromToken, ht, tryBody, hid]
  · constructor <;> simp [getUserFromToken, ht, tryBody]

theorem C5_witness :
    tokenInvalid "tok" = false ∧
    (getUserFromToken "tok" (ApiOutcome.ok (some ⟨some 7, some "alice"⟩))).user =
      some ⟨intToString 7, some "alice", "tok", ⟨some 7, some "alice"⟩⟩ :=
  ⟨by decide,
   (C5_amended "tok" ⟨some 7, some "alice"⟩ (by decide)).1 7 rfl (by decide)⟩

/-- C7: when verification fails nothing is stored — both the BasicStrategy
callback and the startup token authentication leave the registry exactly as
it was. -/
theorem C7_failure_registry_untouched (m : Registry) (t : String) (o : ApiOutcome)
    (hfail : (getUserFromToken t o).user = none) :
    (ensureAuthenticated m t o).1 = m ∧ (initTokenAuth m t o).1 = m := by
  constructor
  · unfold ensureAuthenticated
    rw [hfail]
  · unfold initTokenAuth
    by_cases h : t ≠ ""
    · rw [if_pos h, hfail]
    · rw [if_neg h]

theorem C7_witness :
    (getUserFromToken "bad" (ApiOutcome.httpError 401)).user = none ∧
    (ensureAuthenticated [("1", ⟨"1", some "bob", "x", ⟨some 1, some "bob"⟩⟩)]
        "bad" (ApiOutcome.httpError 401)).1 =
      [("1", ⟨"1", some "bob", "x", ⟨some 1, some "bob"⟩⟩)] :=
  ⟨by decide,
   (C7_failure_registry_untouched
      [("1", ⟨"1", some "bob", "x", ⟨some 1, some "bob"⟩⟩)]
      "bad" (ApiOutcome.httpError 401) (by decide)).1⟩

/-- C6: the registry keeps at most one entry per identity id — verifying
the same credential twice through the BasicStrategy gate leaves exactly one
entry for that user's id (`Map.set` overwrites in place). -/
theorem C6_at_most_one_entry (m : Registry) (t : String) (o : ApiOutcome) (u : User)
    (hnodup : (m.map Prod.fst).Nodup)
    (hok : (getUserFromToken t o).user = some u) :
    ((ensureAuthenticated (ensureAuthenticated m t o).1 t o).1).countP
      (fun p => p.1 == u.id) = 1 := by
  unfold ensureAuthenticated
  rw [hok]
  exact countP_mapSet _ _ _ (mapSet_nodup _ _ _ hnodup)

theorem C6_witness :
    (getUserFromToken "tok" (ApiOutcome.ok (some ⟨some 42, some "alice"⟩))).user =
      some ⟨intToString 42, some "alice", "tok", ⟨some 42, some "alice"⟩⟩ ∧
    ((ensureAuthenticated
        (ensureAuthenticated [] "tok" (ApiOutcome.ok (some ⟨some 42, some "alice"⟩))).1
        "tok" (ApiOutcome.ok (some ⟨some 42, some "alice"⟩))).1).countP
      (fun p => p.1 == intToString 42) = 1 :=
  ⟨by decide,
   C6_at_most_one_entry [] "tok" (ApiOutcome.ok (some ⟨some 42, some "alice"⟩))
     ⟨intToString 42, some "alice", "tok", ⟨some 42, some "alice"⟩⟩
     (by simp) (by decide)⟩

/-- C8 counterexample: the authorization mask is not idempotent on every
header value — on a value shorter than 4 characters a second application
grows the output again. -/
theorem C8_counterexample :
    maskAuthorization (maskAuthorization "abc") ≠ maskAuthorization "abc" := by
  decide

/-- C8 amended: masking is deterministic (equal inputs give equal outputs);
the authorization mask is idempotent on values of length at least 4, and
the MFA mask is idempotent on values of the injected shape — the word
`bearer`, a space, and a dollar-free secret of length at least 4. -/
theorem C8_amended :
    (∀ v w : String, v = w →
      maskAuthorization v = maskAuthorization w ∧ maskMFA v = maskMFA w) ∧
    (∀ v : String, 4 ≤ v.length →
      maskAuthorization (maskAuthorization v) = maskAuthorization v) ∧
    (∀ s : String, 4 ≤ s.length → (∀ c ∈ s.data, c ≠ '$') →
      maskMFA (maskMFA ("bearer " ++ s)) = maskMFA ("bearer " ++ s)) :=
  ⟨fun _ _ h => ⟨congrArg maskAuthorization h, congrArg maskMFA h⟩,
   maskAuthorization_idem, maskMFA_idem⟩

theorem C8_witness :
    (4 ≤ ("tokn" : String).length) ∧
    maskAuthorization (maskAuthorization "tokn") = maskAuthorization "tokn" :=
  ⟨by decide, C8_amended.2.1 "tokn" (by decide)⟩

/-- C1 counterexample: when the secret itself contains the placeholder run
`xxxx`, contiguous 4-character substrings of the secret other than its last
4 characters survive in the masked output — in this instance masking is the
identity, so the diagnostic record exposes the secret completely. -/
theorem C1_counterexample :
    ("xxxA".data <:+: ("xxxxABCD" : String).data) ∧
    "xxxA" ≠ lastChars 4 "xxxxABCD" ∧
    ("xxxA".data <:+: (maskAuthorization ("Bearer " ++ "xxxxABCD")).data) ∧
    maskAuthorization ("Bearer " ++ "xxxxABCD") = "Bearer " ++ "xxxxABCD" := by
  decide

/-- C1 amended: for a secret of length at least 4 none of whose characters
occurs in the masked scaffold (the scheme words, space, `x`, `$`), the
masked value of each credential-bearing header keeps the secret's last 4
characters, preserves the scheme prefix, and contains no other contiguous
4-character substring of the secret. -/
theorem C1_amended (s : String) (hlen : 4 ≤ s.length)
    (hch : ∀ c ∈ s.data, c ∉ schemeChars) :
    ((lastChars 4 s).data <:+: (maskAuthorization ("Bearer " ++ s)).data ∧
     (∃ r, maskAuthorization ("Bearer " ++ s) = "Bearer " ++ r) ∧
     (∀ w : String, w.length = 4 → w.data <:+: s.data →
        w.data <:+: (maskAuthorization ("Bearer " ++ s)).data →
        w = lastChars 4 s)) ∧
    ((lastChars 4 s).data <:+: (maskMFA ("bearer " ++ s)).data ∧
     (∃ r, maskMFA ("bearer " ++ s) = "bearer " ++ r) ∧
     (∀ w : String, w.length = 4 → w.data <:+: s.data →
        w.data <:+: (maskMFA ("bearer " ++ s)).data →
        w = lastChars 4 s)) := by
  have hd : ∀ c ∈ s.data, c ≠ '$' := by
    intro c hc hcd
    exact hch c hc (by rw [hcd]; decide)
  have hne : s.data ≠ [] := by
    have h' : 4 ≤ s.data.length := hlen
    intro h0
    rw [h0] at h'
    simp at h'
  have hA : maskAuthorization ("Bearer " ++ s) = "Bearer xxxx" ++ lastChars 4 s :=
    maskAuthorization_bearer s hlen
  have hM : maskMFA ("bearer " ++ s) = "bearer xxxx" ++ lastChars 4 s := by
    rw [maskMFA_bearer s hne hd, lastChars_append _ _ hlen]
  have hlast : (lastChars 4 s).data.length = 4 := lastChars_length s hlen
  have main : ∀ P : String, (∀ c ∈ P.data, c ∈ schemeChars) →
      ((lastChars 4 s).data <:+: (P ++ lastChars 4 s).data ∧
       (∀ w : String, w.length = 4 → w.data <:+: s.data →
          w.data <:+: (P ++ lastChars 4 s).data → w = lastChars 4 s)) := by
    intro P hP
    constructor
    · rw [String.data_append]
      exact (List.suffix_append P.data (lastChars 4 s).data).isInfix
    · intro w hw4 hws hwm
      rw [String.data_append] at hwm
      have hwF : ∀ c ∈ w.data, c ∉ schemeChars := by
        intro c hc
        exact hch c (hws.subset hc)
      have hwne : w.data ≠ [] := by
        have : w.data.length = 4 := hw4
        intro h0
        rw [h0] at this
        simp at this
      have := eq_of_infix_append_of_chars schemeChars P.data (lastChars 4 s).data
        w.data hP hwF (by rw [hlast]; exact hw4) hwne hwm
      exact congrArg String.mk this
  have hPa : ∀ c ∈ ("Bearer xxxx" : String).data, c ∈ schemeChars := by decide
  have hPb : ∀ c ∈ ("bearer xxxx" : String).data, c ∈ schemeChars := by decide
  obtain ⟨ha1, ha2⟩ := main "Bearer xxxx" hPa
  obtain ⟨hb1, hb2⟩ := main "bearer xxxx" hPb
  refine ⟨⟨by rw [hA]; exact ha1, ⟨"xxxx" ++ lastChars 4 s, ?_⟩,
            fun w h1 h2 h3 => ha2 w h1 h2 (by rw [hA] at h3; exact h3)⟩,
          ⟨by rw [hM]; exact hb1, ⟨"xxxx" ++ lastChars 4 s, ?_⟩,
            fun w h1 h2 h3 => hb2 w h1 h2 (by rw [hM] at h3; exact h3)⟩⟩
  · rw [hA, ← String.append_assoc]
    rfl
  · rw [hM, ← String.append_assoc]
    rfl

theorem C1_witness :
    (4 ≤ ("ghp12345" : String).length) ∧
    (lastChars 4 "ghp12345").data <:+:
      (maskAuthorization ("Bearer " ++ "ghp12345")).data :=
  ⟨by decide, (C1_amended "ghp12345" (by decide) (by decide)).1.1⟩

theorem hookMaskStep2_frame (hp : Heap) (copyReq : Nat) (method url : String)
    (hm1 hm2 : HeaderMap) (u1 u2 : Option HeaderMap) (a : Nat)
    (ha : a ≠ copyReq) (ha2 : a < hp.length) :
    (hookMaskStep (hookMaskStep hp copyReq method url hm1 u1).1
        copyReq method url hm2 u2).1[a]? = hp[a]? := by
  rw [hookMaskStep_frame _ _ _ _ _ _ _ ha
        (Nat.lt_of_lt_of_le ha2 (hookMaskStep_length hp copyReq method url hm1 u1)),
      hookMaskStep_frame _ _ _ _ _ _ _ ha ha2]

/-- C9: producing the masked diagnostic record never mutates the original
outbound request — the hook works on a copy, so after it runs, the request
object still points to its original headers object, that headers object is
unchanged, and the emitted record carries the masked headers. -/
theorem C9_hook_preserves_request (h : Heap) (reqAddr hRef : Nat)
    (method url : String) (hm : HeaderMap)
    (hreq : h[reqAddr]? = some (Obj.req hRef method url))
    (hh : h[hRef]? = some (Obj.hdrs hm)) :
    (beforeRequestHook h reqAddr).1[reqAddr]? = some (Obj.req hRef method url) ∧
    (beforeRequestHook h reqAddr).1[hRef]? = some (Obj.hdrs hm) ∧
    (beforeRequestHook h reqAddr).2 = some ⟨method, url, maskHeaders hm⟩ := by
  have hreqlt : reqAddr < h.length := by
    by_contra hge
    push_neg at hge
    rw [List.getElem?_eq_none hge] at hreq
    exact Option.noConfusion hreq
  have hreflt : hRef < h.length := by
    by_contra hge
    push_neg at hge
    rw [List.getElem?_eq_none hge] at hh
    exact Option.noConfusion hh
  have hrun : beforeRequestHook h reqAddr =
      (let h2 := (h ++ [Obj.hdrs hm]) ++ [Obj.req h.length method url]
       let copyReq := (h ++ [Obj.hdrs hm]).length
       let s3 := hookMaskStep h2 copyReq method url hm (updAuth hm)
       let s4 := hookMaskStep s3.1 copyReq method url s3.2 (updMFA s3.2)
       (s4.1, some ⟨method, url, s4.2⟩)) := by
    unfold beforeRequestHook
    rw [hreq]
    dsimp only
    rw [hh]
  have hframe : ∀ a : Nat, a < h.length → (beforeRequestHook h reqAddr).1[a]? = h[a]? := by
    intro a ha
    rw [hrun]
    dsimp only
    have hane : a ≠ (h ++ [Obj.hdrs hm]).length := by
      rw [List.length_append]
      simp only [List.length_cons, List.length_nil]
      omega
    have hah2 : a < ((h ++ [Obj.hdrs hm]) ++ [Obj.req h.length method url]).length := by
      rw [List.length_append, List.length_append]
      simp only [List.length_cons, List.length_nil]
      omega
    rw [hookMaskStep2_frame _ _ _ _ _ _ _ _ _ hane hah2,
       List.getElem?_append_left (by rw [List.length_append]; simp; omega),
       List.getElem?_append_left ha]
  refine ⟨?_, ?_, ?_⟩
  · rw [hframe reqAddr hreqlt]
    exact hreq
  · rw [hframe hRef hreflt]
    exact hh
  · rw [hrun]
    dsimp only
    rw [hookMaskStep_headers, hookMaskStep_headers]
    unfold maskHeaders
    rfl

theorem C9_witness :
    (([Obj.hdrs ⟨some "Bearer tokenABCD", some "bearer mfaWXYZ"⟩,
       Obj.req 0 "GET" "u"] : Heap)[1]? = some (Obj.req 0 "GET" "u")) ∧
    (beforeRequestHook [Obj.hdrs ⟨some "Bearer tokenABCD", some "bearer mfaWXYZ"⟩,
        Obj.req 0 "GET" "u"] 1).1[0]? =
      some (Obj.hdrs ⟨some "Bearer tokenABCD", some "bearer mfaWXYZ"⟩) :=
  ⟨rfl, (C9_hook_preserves_request _ 1 0 "GET" "u" _ rfl rfl).2.1⟩
